import Mathlib

/-!
Verification of the EvaluatorRunner batch pipeline of the smart-factory
repository.  The definitions below are a shallow embedding of
`azure-functions/EvaluatorRunner/__init__.py` (the orchestrator `main`,
`normalize_trace`), of the sampling gate of
`backend/azure_functions/EvaluatorRunner/__init__.py`, and of
`azure-functions/shared/llm.py` (`call_llm`).  External effects — the
random number generator, the scoring engine `run_evaluator`, the Cosmos
read/upsert operations and the wall clock — are passed in as an explicit
environment; the evaluation store is explicit state; every externally
visible action is recorded in an event list.
-/

set_option maxHeartbeats 1000000

namespace SmartFactory

/-- Python truthiness of an optional string field: a missing value and the
empty string are falsy, every other string is truthy. -/
def truthy : Option String → Bool
  | Option.none => false
  | Option.some s => s != ""

/-- Python `a or b` on two optional string fields: the first operand when it
is truthy, otherwise the second. -/
def pyOr (a b : Option String) : Option String := if truthy a then a else b

/-- Python `trace.get(k) or trace.get(k2, "")` collapsed to a plain string:
the first operand when truthy, otherwise the defaulted second operand. -/
def pyOrStr (a : Option String) (b : String) : String :=
  match a with
  | Option.none => b
  | Option.some s => if s = "" then b else s

/-- A trace document, restricted to the fields the runner reads. -/
structure Trace where
  trace_id : Option String
  id : Option String
  input : Option String
  question : Option String
  context : Option String
  output : Option String
  answer : Option String
deriving DecidableEq, Repr

/-- The effective trace identifier: `trace.get("trace_id") or trace.get("id")`;
`none` when the result is falsy, in which case the trace is skipped. -/
def effTraceId (t : Trace) : Option String :=
  let v := pyOr t.trace_id t.id
  if truthy v then v else Option.none

/-- The normalized trace view handed to the scoring engine. -/
structure NormTrace where
  input : String
  context : String
  response : String
  output : String
  raw : Trace
deriving DecidableEq, Repr

/-- Embedding of `normalize_trace`. -/
def normalize_trace (t : Trace) : NormTrace :=
  { input := pyOrStr t.input (t.question.getD "")
    context := t.context.getD ""
    response := pyOrStr t.output (t.answer.getD "")
    output := pyOrStr t.output (t.answer.getD "")
    raw := t }

/-- A dynamically typed score value as returned by the scoring engine:
numeric, string, or Python `None`. -/
inductive Val where
  | num (q : ℚ)
  | str (s : String)
  | none
deriving DecidableEq, Repr

/-- Outcome of one call of the scoring engine `run_evaluator`: either a
result dictionary (score, raw_output, classification) or a raised
exception carrying its message. -/
inductive ScoreOutcome where
  | ok (score : Val) (raw_output : Option String) (classification : Option String)
  | exn (msg : String)
deriving DecidableEq, Repr

/-- Round a rational to the nearest integer, ties to the even integer
(the rounding Python `round` uses). -/
def rndHalfEven (x : ℚ) : ℤ :=
  let f : ℤ := ⌊x⌋
  let r : ℚ := x - f
  if r < 1/2 then f
  else if 1/2 < r then f + 1
  else if 2 ∣ f then f else f + 1

/-- Embedding of `round(float(score), 2)` on the idealized rational value
of the score. -/
def pyRound2 (q : ℚ) : ℚ := (rndHalfEven (100 * q) : ℚ) / 100

/-- The transformation the runner applies to the score before persistence:
numeric scores are rounded to two decimals, everything else is kept. -/
def persistScore : Val → Val
  | Val.num q => Val.num (pyRound2 q)
  | v => v

/-- The persisted Evaluation record. -/
structure EvalDoc where
  id : String
  trace_id : String
  evaluator : Option String
  evaluator_id : String
  template_id : String
  score : Val
  classification : Option String
  raw_output : Option String
  status : String
  duration_ms : ℕ
  timestamp : String
deriving DecidableEq, Repr

/-- The composite idempotency key `f"{trace_id}:{evaluator_id}"`. -/
def mkEvalId (trace_id evaluator_id : String) : String :=
  trace_id ++ ":" ++ evaluator_id

/-- Whether the evaluation store holds a record with the given item key. -/
def storeHas (store : List EvalDoc) (k : String) : Bool :=
  store.any (fun d => d.id == k)

/-- Point read of the store by item key. -/
def lookupKey (store : List EvalDoc) (k : String) : Option EvalDoc :=
  store.find? (fun d => d.id == k)

/-- Number of records in the store with the given item key. -/
def countKey (store : List EvalDoc) (k : String) : ℕ :=
  (store.filter (fun d => d.id == k)).length

/-- Number of records in the store for a given (trace, evaluator) pair. -/
def countPair (store : List EvalDoc) (t e : String) : ℕ :=
  (store.filter (fun d => d.trace_id == t && d.evaluator_id == e)).length

/-- Cosmos `upsert_item`: replace the record with the same item key when one
exists, append otherwise. -/
def upsertDoc (store : List EvalDoc) (doc : EvalDoc) : List EvalDoc :=
  if storeHas store doc.id then
    store.map (fun d => if d.id == doc.id then doc else d)
  else store ++ [doc]

/-- Externally visible actions of the runner, in execution order. -/
inductive Event where
  | draw (q : ℚ)
  | sleep (seconds : ℚ)
  | readCheck (eid : String)
  | skipReadErr (eid : String)
  | skipExisting (eid : String)
  | score (evaluator_id trace_id : String)
  | upsertOk (eid : String)
  | upsertFail (eid : String)
deriving DecidableEq, Repr

/-- One audit entry as emitted by `audit_log`. -/
structure Audit where
  action : String
  type : String
  user : String
  details : String
deriving DecidableEq, Repr

/-- Mutable state threaded through a run: the evaluation store, the position
in the random stream, the emitted events and the emitted audit entries. -/
structure RunSt where
  store : List EvalDoc
  rngIdx : ℕ
  events : List Event
  audits : List Audit
deriving DecidableEq, Repr

/-- The empty initial state. -/
def initSt : RunSt := { store := [], rngIdx := 0, events := [], audits := [] }

/-- The environment of external effects: the stream of uniform draws of the
global RNG, the scoring engine, transient idempotency-read failures,
upsert failures, and the wall clock (duration and timestamp per record). -/
structure Env where
  draws : ℕ → ℚ
  runEval : String → NormTrace → ScoreOutcome
  readErr : String → Bool
  upsertErr : String → Bool
  duration : String → ℕ
  stamp : String → String

/-- The validated per-evaluator configuration the inner loop works with. -/
structure EvInfo where
  evaluator_id : String
  evaluator_name : Option String
  template_id : String
  sampling_rate : ℚ
  delay_ms : ℚ
deriving DecidableEq, Repr

/-- An evaluator catalog record with the fields the runner reads; a missing
field is `none`. -/
structure Evaluator where
  id : Option String
  score_name : Option String
  template_id : Option String
  sampling_rate : Option ℚ
  delay_ms : Option ℚ
deriving DecidableEq, Repr

/-- Field extraction with defaults, as read in the loop body. -/
def evInfoOf (ev : Evaluator) : EvInfo :=
  { evaluator_id := ev.id.getD ""
    evaluator_name := ev.score_name
    template_id := ev.template_id.getD ""
    sampling_rate := ev.sampling_rate.getD 1
    delay_ms := ev.delay_ms.getD 0 }

/-- The guard `if not evaluator_id or not template_id: continue`. -/
def validEvaluator (ev : Evaluator) : Bool :=
  truthy ev.id && truthy ev.template_id

/-- The sampling gate of the azure-functions variant: the trace passes
unless the drawn value exceeds the configured rate
(`if random.random() > sampling_rate: continue`). -/
def passesSampling (rate draw : ℚ) : Bool := !(decide (draw > rate))

/-- Embedding of the clamp in `backend/azure_functions/EvaluatorRunner`:
that variant first clamps an out-of-range sampling rate to 1.0 (safety
fallback), defaulting a missing rate to 1.0. -/
def clampRateBackend (r : Option ℚ) : ℚ :=
  let sr := r.getD 1
  if sr < 0 ∨ sr > 1 then 1 else sr

/-- The sampling gate of the backend variant: clamp, then the same
draw-versus-rate comparison. -/
def passesSamplingBackend (r : Option ℚ) (draw : ℚ) : Bool :=
  passesSampling (clampRateBackend r) draw

/-- The record the runner builds for one (trace, evaluator) unit: the scoring
engine is invoked on the normalized trace; a raised exception is captured as
score `None`, raw output the failure message, classification and status
`failed`; otherwise the score is rounded when numeric and the status derived
from the classification (`completed` unless the classification is
`failed`). -/
def docFor (env : Env) (info : EvInfo) (tid : String) (t : Trace) : EvalDoc :=
  let eid := mkEvalId tid info.evaluator_id
  match env.runEval info.evaluator_id (normalize_trace t) with
  | ScoreOutcome.ok sc ro cl =>
    { id := eid
      trace_id := tid
      evaluator := info.evaluator_name
      evaluator_id := info.evaluator_id
      template_id := info.template_id
      score := persistScore sc
      classification := cl
      raw_output := ro
      status := if cl = Option.some "failed" then "failed" else "completed"
      duration_ms := env.duration eid
      timestamp := env.stamp eid }
  | ScoreOutcome.exn m =>
    { id := eid
      trace_id := tid
      evaluator := info.evaluator_name
      evaluator_id := info.evaluator_id
      template_id := info.template_id
      score := Val.none
      classification := Option.some "failed"
      raw_output := Option.some m
      status := "failed"
      duration_ms := env.duration eid
      timestamp := env.stamp eid }

/-- One iteration of the inner trace loop of `main`, for one evaluator and
one trace document, carrying the run state and the `executed_count`
accumulator: resolve the trace id (skip when falsy), draw the sampling
value (skip when above the rate), optionally sleep the configured delay,
perform the idempotency point read (skip when the record exists or the
read fails), invoke the scoring engine, and upsert the resulting record
(counting it as executed only when the upsert succeeds). -/
def processTrace (env : Env) (info : EvInfo) (sc : RunSt × ℕ) (t : Trace) :
    RunSt × ℕ :=
  match effTraceId t with
  | Option.none => sc
  | Option.some tid =>
    let s := sc.1
    let c := sc.2
    let d := env.draws s.rngIdx
    let s1 : RunSt :=
      { s with rngIdx := s.rngIdx + 1, events := s.events ++ [Event.draw d] }
    if passesSampling info.sampling_rate d = false then (s1, c)
    else
      let s2 : RunSt :=
        if info.delay_ms > 0 then
          { s1 with events := s1.events ++ [Event.sleep (info.delay_ms / 1000)] }
        else s1
      let eid := mkEvalId tid info.evaluator_id
      let s3 : RunSt := { s2 with events := s2.events ++ [Event.readCheck eid] }
      if env.readErr eid then
        ({ s3 with events := s3.events ++ [Event.skipReadErr eid] }, c)
      else if storeHas s3.store eid then
        ({ s3 with events := s3.events ++ [Event.skipExisting eid] }, c)
      else
        let doc := docFor env info tid t
        let s4 : RunSt :=
          { s3 with events := s3.events ++ [Event.score info.evaluator_id tid] }
        if env.upsertErr eid then
          ({ s4 with events := s4.events ++ [Event.upsertFail eid] }, c)
        else
          ({ s4 with store := upsertDoc s4.store doc
                     events := s4.events ++ [Event.upsertOk eid] }, c + 1)

/-- The audit detail line
`f"Ran evaluator \x27{evaluator_id}\x27 on {executed_count}/{trace_count} traces"`. -/
def auditDetails (evaluator_id : String) (executed total : ℕ) : String :=
  "Ran evaluator \x27" ++ evaluator_id ++ "\x27 on " ++ toString executed ++
    "/" ++ toString total ++ " traces"

/-- The audit entry emitted after one evaluator finishes its batch. -/
def mkAudit (evaluator_id : String) (executed total : ℕ) : Audit :=
  { action := "Evaluator Run Completed"
    type := "evaluator"
    user := "system"
    details := auditDetails evaluator_id executed total }

/-- One iteration of the outer evaluator loop of `main`: validate the
configuration (skip invalid records), run every trace of the batch through
`processTrace` with `executed_count` starting at zero, then emit exactly one
audit entry for the evaluator. -/
def processEvaluator (env : Env) (docs : List Trace) (trace_count : ℕ)
    (s : RunSt) (ev : Evaluator) : RunSt :=
  if validEvaluator ev then
    let info := evInfoOf ev
    let r := docs.foldl (processTrace env info) (s, 0)
    { r.1 with audits := r.1.audits ++ [mkAudit info.evaluator_id r.2 trace_count] }
  else s

/-- The outer loop over the loaded evaluator catalog. -/
def runEvaluators (env : Env) (docs : List Trace) (trace_count : ℕ)
    (s : RunSt) (evs : List Evaluator) : RunSt :=
  evs.foldl (processEvaluator env docs trace_count) s

/-- The entry point `main`: return immediately on an empty batch, take the
batch length as `trace_count` before any per-trace validation, return when
the catalog holds no active evaluator, otherwise run every evaluator. -/
def runPipeline (env : Env) (docs : List Trace) (evs : List Evaluator)
    (s : RunSt) : RunSt :=
  if docs.isEmpty then s
  else if evs.isEmpty then s
  else runEvaluators env docs docs.length s evs

/-- Recognizer for successful upsert events. -/
def isUpsertOk : Event → Bool
  | Event.upsertOk _ => true
  | _ => false

/-- Number of successful upserts recorded in an event list. -/
def countUpsertOk (es : List Event) : ℕ := (es.filter isUpsertOk).length

/-- Whether an event scores or writes the unit with the given idempotency
key. -/
def touchesKey (k : String) : Event → Bool
  | Event.score evid tid => mkEvalId tid evid == k
  | Event.upsertOk e => e == k
  | Event.upsertFail e => e == k
  | _ => false

/-- Events of an optional throttle delay. -/
def delayEvents (info : EvInfo) : List Event :=
  if info.delay_ms > 0 then [Event.sleep (info.delay_ms / 1000)] else []

/-- Outcome of one remote attempt inside `call_llm`: either the call raises
or it returns the response text (possibly empty). -/
inductive LlmAttempt where
  | raised (msg : String)
  | ok (content : String)
deriving DecidableEq, Repr

/-- Observable behaviour of one invocation of `call_llm`: the returned
value, the number of remote attempts made and the backoff sleeps (in
seconds) performed between consecutive attempts. -/
structure LlmRun where
  result : Option String
  attempts : ℕ
  sleeps : List ℕ
deriving DecidableEq, Repr

/-- The retry loop body of `call_llm` of `shared/llm.py`: while
`attempt <= max_retries`, make one attempt; on success return `None` for
empty text and the stripped text otherwise; on an exception increment
`attempt` and, when attempts remain, sleep `2 ** attempt` seconds and retry,
otherwise return `None`.  The first argument of the recursion is fuel
bounding the loop (the caller passes `max_retries + 1`, enough for every
iteration the source loop can make). -/
def llm_go (f : ℕ → LlmAttempt) (max_retries : ℕ) : ℕ → ℕ → LlmRun
  | 0, _ => { result := Option.none, attempts := 0, sleeps := [] }
  | fuel + 1, attempt =>
    if attempt ≤ max_retries then
      match f attempt with
      | LlmAttempt.ok content =>
        if content = "" then { result := Option.none, attempts := 1, sleeps := [] }
        else { result := Option.some content.trim, attempts := 1, sleeps := [] }
      | LlmAttempt.raised _ =>
        if attempt + 1 ≤ max_retries then
          let r := llm_go f max_retries fuel (attempt + 1)
          { result := r.result, attempts := r.attempts + 1
            sleeps := 2 ^ (attempt + 1) :: r.sleeps }
        else { result := Option.none, attempts := 1, sleeps := [] }
    else { result := Option.none, attempts := 0, sleeps := [] }

/-- Embedding of `call_llm`: run the retry loop from attempt 0. -/
def call_llm (f : ℕ → LlmAttempt) (max_retries : ℕ) : LlmRun :=
  llm_go f max_retries (max_retries + 1) 0

/-- A constant stream of uniform draws, all equal to the given value. -/
def constDraws (q : ℚ) : ℕ → ℚ := fun _ => q

/-- A scoring engine that always succeeds with score 1. -/
def okEngine : String → NormTrace → ScoreOutcome :=
  fun _ _ => ScoreOutcome.ok (Val.num 1) (Option.some "ok") (Option.some "good")

/-- A test environment: draws are all 0, scoring always succeeds, the store
never fails, the clock is frozen. -/
def testEnv : Env :=
  { draws := constDraws 0
    runEval := okEngine
    readErr := fun _ => false
    upsertErr := fun _ => false
    duration := fun _ => 0
    stamp := fun _ => "T0" }

/-- A test environment whose scoring engine raises for the trace with id t1
and succeeds for every other trace. -/
def mixEnv : Env :=
  { draws := constDraws 0
    runEval := fun _ nt =>
      if nt.raw.trace_id = Option.some "t1" then ScoreOutcome.exn "boom"
      else ScoreOutcome.ok (Val.num 1) (Option.some "ok") (Option.some "good")
    readErr := fun _ => false
    upsertErr := fun _ => false
    duration := fun _ => 0
    stamp := fun _ => "T0" }

/-- A concrete trace document with id t1. -/
def traceT1 : Trace :=
  { trace_id := Option.some "t1", id := Option.none, input := Option.some "q1"
    question := Option.none, context := Option.some "c1"
    output := Option.some "a1", answer := Option.none }

/-- A concrete trace document with id t2. -/
def traceT2 : Trace :=
  { trace_id := Option.some "t2", id := Option.none, input := Option.some "q2"
    question := Option.none, context := Option.some "c2"
    output := Option.some "a2", answer := Option.none }

/-- A trace document with neither a trace_id field nor an id field. -/
def traceNoId : Trace :=
  { trace_id := Option.none, id := Option.none, input := Option.some "q"
    question := Option.none, context := Option.none
    output := Option.some "a", answer := Option.none }

/-- A valid evaluator with sampling rate 1 and no delay. -/
def evalOne : Evaluator :=
  { id := Option.some "e1", score_name := Option.some "Eval One"
    template_id := Option.some "tmpl1", sampling_rate := Option.some 1
    delay_ms := Option.none }

/-- A valid evaluator whose configured sampling rate is negative (outside
the [0,1] contract range). -/
def evalNegRate : Evaluator :=
  { id := Option.some "e1", score_name := Option.some "Eval One"
    template_id := Option.some "tmpl1", sampling_rate := Option.some (-(1/2))
    delay_ms := Option.none }

/-- A valid evaluator with sampling rate 0. -/
def evalZeroRate : Evaluator :=
  { id := Option.some "e1", score_name := Option.some "Eval One"
    template_id := Option.some "tmpl1", sampling_rate := Option.some 0
    delay_ms := Option.none }

/-- An evaluator record with no template id. -/
def evalNoTemplate : Evaluator :=
  { id := Option.some "e2", score_name := Option.some "Eval Two"
    template_id := Option.none, sampling_rate := Option.some 1
    delay_ms := Option.none }

/-- A pre-existing Evaluation record (a failed one) for seeding the store. -/
def docPre : EvalDoc :=
  { id := "t0:e0", trace_id := "t0", evaluator := Option.none
    evaluator_id := "e0", template_id := "tm", score := Val.none
    classification := Option.some "failed", raw_output := Option.none
    status := "failed", duration_ms := 0, timestamp := "T" }

/-- An initial state whose store already holds one record. -/
def preSt : RunSt := { store := [docPre], rngIdx := 0, events := [], audits := [] }

theorem storeHas_iff (store : List EvalDoc) (k : String) :
    storeHas store k = true ↔ ∃ d ∈ store, d.id = k := by
  simp [storeHas, List.any_eq_true, beq_iff_eq]

theorem storeHas_false (store : List EvalDoc) (k : String) :
    storeHas store k = false ↔ ∀ d ∈ store, d.id ≠ k := by
  rw [← Bool.not_eq_true, storeHas_iff]
  simp

theorem countKey_eq_zero (store : List EvalDoc) (k : String)
    (h : storeHas store k = false) : countKey store k = 0 := by
  rw [storeHas_false] at h
  unfold countKey
  rw [List.length_eq_zero, List.filter_eq_nil_iff]
  intro d hd
  simpa using h d hd

theorem countKey_append (s1 s2 : List EvalDoc) (k : String) :
    countKey (s1 ++ s2) k = countKey s1 k + countKey s2 k := by
  unfold countKey
  rw [List.filter_append, List.length_append]

theorem storeHas_countKey (store : List EvalDoc) (k : String) :
    storeHas store k = true ↔ 0 < countKey store k := by
  rw [storeHas_iff]
  unfold countKey
  rw [List.length_pos_iff_exists_mem]
  constructor
  · rintro ⟨d, hd, hid⟩
    exact ⟨d, List.mem_filter.2 ⟨hd, by simp [hid]⟩⟩
  · rintro ⟨d, hd⟩
    have hm := List.mem_filter.1 hd
    exact ⟨d, hm.1, by simpa using hm.2⟩

theorem length_filter_map_eq {α : Type} (f : α → α) (p : α → Bool) :
    ∀ l : List α, (∀ x ∈ l, p (f x) = p x) →
      ((l.map f).filter p).length = (l.filter p).length := by
  intro l
  induction l with
  | nil => intro _; rfl
  | cons x rest ih =>
    intro h
    have ih2 := ih fun y hy => h y (List.mem_cons_of_mem x hy)
    simp only [List.map_cons, List.filter_cons, h x (List.mem_cons_self x rest)]
    cases hp : p x <;> simp [hp, ih2]

theorem find?_map_eq {α : Type} (f : α → α) (p : α → Bool) :
    ∀ l : List α, (∀ x ∈ l, p (f x) = p x) → (∀ x ∈ l, p x = true → f x = x) →
      (l.map f).find? p = l.find? p := by
  intro l
  induction l with
  | nil => intro _ _; rfl
  | cons x rest ih =>
    intro h1 h2
    have ih2 := ih (fun y hy => h1 y (List.mem_cons_of_mem x hy))
      (fun y hy => h2 y (List.mem_cons_of_mem x hy))
    simp only [List.map_cons, List.find?_cons, h1 x (List.mem_cons_self x rest)]
    cases hp : p x
    · exact ih2
    · rw [h2 x (List.mem_cons_self x rest) hp]

theorem countKey_replace (store : List EvalDoc) (doc : EvalDoc) (k : String) :
    countKey (store.map (fun d => if d.id == doc.id then doc else d)) k =
      countKey store k := by
  unfold countKey
  apply length_filter_map_eq
  intro x _
  by_cases hx : x.id = doc.id
  · simp [hx]
  · simp [hx]

theorem countKey_upsertDoc_ne (store : List EvalDoc) (doc : EvalDoc) (k : String)
    (h : doc.id ≠ k) : countKey (upsertDoc store doc) k = countKey store k := by
  unfold upsertDoc
  by_cases hs : storeHas store doc.id = true
  · rw [if_pos hs, countKey_replace]
  · rw [if_neg hs, countKey_append]
    simp [countKey, List.filter_cons, h]

theorem countKey_upsertDoc_new (store : List EvalDoc) (doc : EvalDoc)
    (h : storeHas store doc.id = false) :
    countKey (upsertDoc store doc) doc.id = 1 := by
  unfold upsertDoc
  rw [if_neg (by simp [h]), countKey_append, countKey_eq_zero store doc.id h]
  simp [countKey, List.filter_cons]

theorem uniq_upsertDoc (store : List EvalDoc) (doc : EvalDoc)
    (h : ∀ k, countKey store k ≤ 1) :
    ∀ k, countKey (upsertDoc store doc) k ≤ 1 := by
  intro k
  by_cases hk : doc.id = k
  · subst hk
    by_cases hs : storeHas store doc.id = true
    · unfold upsertDoc
      rw [if_pos hs, countKey_replace]
      exact h doc.id
    · rw [countKey_upsertDoc_new store doc (by simpa using hs)]
  · rw [countKey_upsertDoc_ne store doc k hk]
    exact h k

theorem countKey_upsertDoc_has (store : List EvalDoc) (doc : EvalDoc)
    (hs : storeHas store doc.id = true) (k : String) :
    countKey (upsertDoc store doc) k = countKey store k := by
  unfold upsertDoc
  rw [if_pos hs]
  exact countKey_replace store doc k

theorem storeHas_upsertDoc_mono (store : List EvalDoc) (doc : EvalDoc) (k : String)
    (h : storeHas store k = true) : storeHas (upsertDoc store doc) k = true := by
  rw [storeHas_countKey] at h ⊢
  by_cases hk : doc.id = k
  · by_cases hs : storeHas store doc.id = true
    · rw [countKey_upsertDoc_has store doc hs k]
      exact h
    · exact absurd ((storeHas_countKey store k).2 h) (hk ▸ hs)
  · rw [countKey_upsertDoc_ne store doc k hk]
    exact h

theorem storeHas_upsertDoc_ne (store : List EvalDoc) (doc : EvalDoc) (k : String)
    (h : doc.id ≠ k) : storeHas (upsertDoc store doc) k = storeHas store k := by
  rw [Bool.eq_iff_iff, storeHas_countKey, storeHas_countKey,
    countKey_upsertDoc_ne store doc k h]

theorem lookupKey_upsertDoc_ne (store : List EvalDoc) (doc : EvalDoc) (k : String)
    (h : doc.id ≠ k) : lookupKey (upsertDoc store doc) k = lookupKey store k := by
  unfold upsertDoc lookupKey
  by_cases hs : storeHas store doc.id = true
  · rw [if_pos hs]
    apply find?_map_eq
    · intro x _
      by_cases hx : x.id = doc.id
      · simp [hx, h]
      · simp [hx]
    · intro x _ hp
      have hxk : x.id = k := by simpa using hp
      have hxd : ¬ x.id = doc.id := fun hh => h (hh ▸ hxk)
      simp [hxd]
  · rw [if_neg hs, List.find?_append]
    have h1 : List.find? (fun d => d.id == k) [doc] = Option.none := by
      simp [List.find?_cons, h]
    rw [h1]
    cases store.find? (fun d => d.id == k) <;> rfl

theorem lookupKey_upsertDoc_self (store : List EvalDoc) (doc : EvalDoc)
    (h : storeHas store doc.id = false) :
    lookupKey (upsertDoc store doc) doc.id = Option.some doc := by
  unfold upsertDoc lookupKey
  rw [if_neg (by simp [h]), List.find?_append]
  have h2 : store.find? (fun d => d.id == doc.id) = Option.none := by
    rw [List.find?_eq_none]
    intro x hx
    simp [(storeHas_false store doc.id).1 h x hx]
  rw [h2]
  simp [List.find?_cons]

theorem mem_upsertDoc (store : List EvalDoc) (doc x : EvalDoc)
    (h : x ∈ upsertDoc store doc) : x ∈ store ∨ x = doc := by
  unfold upsertDoc at h
  by_cases hs : storeHas store doc.id = true
  · rw [if_pos hs] at h
    obtain ⟨y, hy, hyx⟩ := List.mem_map.1 h
    by_cases hyy : y.id = doc.id
    · right
      rw [← hyx]
      simp [hyy]
    · left
      rw [← hyx]
      simpa [hyy] using hy
  · rw [if_neg hs] at h
    rcases List.mem_append.1 h with h1 | h1
    · exact Or.inl h1
    · exact Or.inr (List.mem_singleton.1 h1)

theorem length_filter_mono {α : Type} (p q : α → Bool) :
    ∀ l : List α, (∀ x ∈ l, p x = true → q x = true) →
      (l.filter p).length ≤ (l.filter q).length := by
  intro l
  induction l with
  | nil => intro _; simp
  | cons x rest ih =>
    intro h
    have ih2 := ih fun y hy hp => h y (List.mem_cons_of_mem x hy) hp
    simp only [List.filter_cons]
    cases hp : p x
    · cases hq : q x <;> simp [hp, hq] <;> omega
    · have hqt := h x (List.mem_cons_self x rest) hp
      simp [hp, hqt]
      omega

theorem countPair_le_countKey (store : List EvalDoc) (t e : String)
    (h : ∀ d ∈ store, d.id = mkEvalId d.trace_id d.evaluator_id) :
    countPair store t e ≤ countKey store (mkEvalId t e) := by
  unfold countPair countKey
  apply length_filter_mono
  intro d hd hp
  have h1 : d.trace_id = t ∧ d.evaluator_id = e := by
    constructor <;> simp_all
  rw [beq_iff_eq, h d hd, h1.1, h1.2]

theorem docFor_id (env : Env) (info : EvInfo) (tid : String) (t : Trace) :
    (docFor env info tid t).id = mkEvalId tid info.evaluator_id := by
  unfold docFor
  split <;> rfl

theorem docFor_trace_id (env : Env) (info : EvInfo) (tid : String) (t : Trace) :
    (docFor env info tid t).trace_id = tid := by
  unfold docFor
  split <;> rfl

theorem docFor_evaluator_id (env : Env) (info : EvInfo) (tid : String) (t : Trace) :
    (docFor env info tid t).evaluator_id = info.evaluator_id := by
  unfold docFor
  split <;> rfl

theorem docFor_status_iff (env : Env) (info : EvInfo) (tid : String) (t : Trace) :
    ((docFor env info tid t).status = "failed" ↔
      (docFor env info tid t).classification = Option.some "failed") := by
  unfold docFor
  split
  · rename_i sc ro cl _
    by_cases hc : cl = Option.some "failed"
    · simp [hc]
    · have hne : ("completed" : String) ≠ "failed" := by decide
      simp [hc, hne]
  · simp

theorem docFor_exn (env : Env) (info : EvInfo) (tid : String) (t : Trace)
    (m : String)
    (h : env.runEval info.evaluator_id (normalize_trace t) = ScoreOutcome.exn m) :
    docFor env info tid t =
      { id := mkEvalId tid info.evaluator_id
        trace_id := tid
        evaluator := info.evaluator_name
        evaluator_id := info.evaluator_id
        template_id := info.template_id
        score := Val.none
        classification := Option.some "failed"
        raw_output := Option.some m
        status := "failed"
        duration_ms := env.duration (mkEvalId tid info.evaluator_id)
        timestamp := env.stamp (mkEvalId tid info.evaluator_id) } := by
  unfold docFor
  rw [h]

theorem processTrace_noId (env : Env) (info : EvInfo) (s : RunSt) (c : ℕ)
    (t : Trace) (h : effTraceId t = Option.none) :
    processTrace env info (s, c) t = (s, c) := by
  unfold processTrace
  rw [h]

theorem processTrace_sampledOut (env : Env) (info : EvInfo) (s : RunSt) (c : ℕ)
    (t : Trace) (tid : String) (h : effTraceId t = Option.some tid)
    (hp : passesSampling info.sampling_rate (env.draws s.rngIdx) = false) :
    processTrace env info (s, c) t =
      ({ s with rngIdx := s.rngIdx + 1
                events := s.events ++ [Event.draw (env.draws s.rngIdx)] }, c) := by
  unfold processTrace
  rw [h]
  dsimp only
  rw [hp]
  simp

theorem processTrace_readErrCase (env : Env) (info : EvInfo) (s : RunSt) (c : ℕ)
    (t : Trace) (tid : String) (h : effTraceId t = Option.some tid)
    (hp : passesSampling info.sampling_rate (env.draws s.rngIdx) = true)
    (hre : env.readErr (mkEvalId tid info.evaluator_id) = true) :
    processTrace env info (s, c) t =
      ({ s with rngIdx := s.rngIdx + 1
                events := s.events ++ Event.draw (env.draws s.rngIdx) ::
                  (delayEvents info ++
                    [Event.readCheck (mkEvalId tid info.evaluator_id),
                     Event.skipReadErr (mkEvalId tid info.evaluator_id)]) }, c) := by
  unfold processTrace
  rw [h]
  dsimp only
  rw [hp]
  by_cases hd : info.delay_ms > 0 <;>
    simp [hd, hre, delayEvents, List.append_assoc]

theorem processTrace_existing (env : Env) (info : EvInfo) (s : RunSt) (c : ℕ)
    (t : Trace) (tid : String) (h : effTraceId t = Option.some tid)
    (hp : passesSampling info.sampling_rate (env.draws s.rngIdx) = true)
    (hre : env.readErr (mkEvalId tid info.evaluator_id) = false)
    (hex : storeHas s.store (mkEvalId tid info.evaluator_id) = true) :
    processTrace env info (s, c) t =
      ({ s with rngIdx := s.rngIdx + 1
                events := s.events ++ Event.draw (env.draws s.rngIdx) ::
                  (delayEvents info ++
                    [Event.readCheck (mkEvalId tid info.evaluator_id),
                     Event.skipExisting (mkEvalId tid info.evaluator_id)]) }, c) := by
  unfold processTrace
  rw [h]
  dsimp only
  rw [hp]
  by_cases hd : info.delay_ms > 0 <;>
    simp [hd, hre, hex, delayEvents, List.append_assoc]

theorem processTrace_upsertFail (env : Env) (info : EvInfo) (s : RunSt) (c : ℕ)
    (t : Trace) (tid : String) (h : effTraceId t = Option.some tid)
    (hp : passesSampling info.sampling_rate (env.draws s.rngIdx) = true)
    (hre : env.readErr (mkEvalId tid info.evaluator_id) = false)
    (hex : storeHas s.store (mkEvalId tid info.evaluator_id) = false)
    (hue : env.upsertErr (mkEvalId tid info.evaluator_id) = true) :
    processTrace env info (s, c) t =
      ({ s with rngIdx := s.rngIdx + 1
                events := s.events ++ Event.draw (env.draws s.rngIdx) ::
                  (delayEvents info ++
                    [Event.readCheck (mkEvalId tid info.evaluator_id),
                     Event.score info.evaluator_id tid,
                     Event.upsertFail (mkEvalId tid info.evaluator_id)]) }, c) := by
  unfold processTrace
  rw [h]
  dsimp only
  rw [hp]
  by_cases hd : info.delay_ms > 0 <;>
    simp [hd, hre, hex, hue, delayEvents, List.append_assoc]

theorem processTrace_persist (env : Env) (info : EvInfo) (s : RunSt) (c : ℕ)
    (t : Trace) (tid : String) (h : effTraceId t = Option.some tid)
    (hp : passesSampling info.sampling_rate (env.draws s.rngIdx) = true)
    (hre : env.readErr (mkEvalId tid info.evaluator_id) = false)
    (hex : storeHas s.store (mkEvalId tid info.evaluator_id) = false)
    (hue : env.upsertErr (mkEvalId tid info.evaluator_id) = false) :
    processTrace env info (s, c) t =
      ({ s with store := upsertDoc s.store (docFor env info tid t)
                rngIdx := s.rngIdx + 1
                events := s.events ++ Event.draw (env.draws s.rngIdx) ::
                  (delayEvents info ++
                    [Event.readCheck (mkEvalId tid info.evaluator_id),
                     Event.score info.evaluator_id tid,
                     Event.upsertOk (mkEvalId tid info.evaluator_id)]) }, c + 1) := by
  unfold processTrace
  rw [h]
  dsimp only
  rw [hp]
  by_cases hd : info.delay_ms > 0 <;>
    simp [hd, hre, hex, hue, delayEvents, List.append_assoc]

theorem touchesKey_elim (k : String) (e : Event) (htk : touchesKey k e = true) :
    (∃ evid tid, e = Event.score evid tid ∧ mkEvalId tid evid = k) ∨
      e = Event.upsertOk k ∨ e = Event.upsertFail k := by
  cases e with
  | draw q => simp [touchesKey] at htk
  | sleep q => simp [touchesKey] at htk
  | readCheck e1 => simp [touchesKey] at htk
  | skipReadErr e1 => simp [touchesKey] at htk
  | skipExisting e1 => simp [touchesKey] at htk
  | score evid tid =>
    have hk : mkEvalId tid evid = k := by simpa [touchesKey] using htk
    exact Or.inl ⟨evid, tid, rfl, hk⟩
  | upsertOk e1 =>
    have hk : e1 = k := by simpa [touchesKey] using htk
    exact Or.inr (Or.inl (by rw [hk]))
  | upsertFail e1 =>
    have hk : e1 = k := by simpa [touchesKey] using htk
    exact Or.inr (Or.inr (by rw [hk]))

theorem processTrace_master (env : Env) (info : EvInfo) (s : RunSt) (c : ℕ)
    (t : Trace) :
    ∃ new : List Event,
      (processTrace env info (s, c) t).1.events = s.events ++ new ∧
      (processTrace env info (s, c) t).1.audits = s.audits ∧
      countUpsertOk new + c = (processTrace env info (s, c) t).2 ∧
      (∀ e ∈ new, ∀ k, touchesKey k e = true → storeHas s.store k = false) ∧
      ((processTrace env info (s, c) t).1.store = s.store ∧
          (processTrace env info (s, c) t).2 = c ∨
        ∃ tid, effTraceId t = Option.some tid ∧
          storeHas s.store (mkEvalId tid info.evaluator_id) = false ∧
          (processTrace env info (s, c) t).1.store =
            upsertDoc s.store (docFor env info tid t) ∧
          (processTrace env info (s, c) t).2 = c + 1) := by
  cases hid : effTraceId t with
  | none =>
    refine ⟨[], ?_⟩
    rw [processTrace_noId env info s c t hid]
    simp [countUpsertOk]
  | some tid =>
    cases hp : passesSampling info.sampling_rate (env.draws s.rngIdx) with
    | false =>
      refine ⟨[Event.draw (env.draws s.rngIdx)], ?_⟩
      rw [processTrace_sampledOut env info s c t tid hid hp]
      refine ⟨rfl, rfl, by simp [countUpsertOk, isUpsertOk], ?_, Or.inl ⟨rfl, rfl⟩⟩
      intro e he k htk
      rcases touchesKey_elim k e htk with ⟨evid, tid2, rfl, _⟩ | rfl | rfl <;>
        simp at he
    | true =>
      cases hre : env.readErr (mkEvalId tid info.evaluator_id) with
      | true =>
        refine ⟨Event.draw (env.draws s.rngIdx) ::
          (delayEvents info ++
            [Event.readCheck (mkEvalId tid info.evaluator_id),
             Event.skipReadErr (mkEvalId tid info.evaluator_id)]), ?_⟩
        rw [processTrace_readErrCase env info s c t tid hid hp hre]
        refine ⟨rfl, rfl, ?_, ?_, Or.inl ⟨rfl, rfl⟩⟩
        · by_cases hdel : info.delay_ms > 0 <;>
            simp [countUpsertOk, isUpsertOk, delayEvents, hdel]
        · intro e he k htk
          by_cases hdel : info.delay_ms > 0 <;>
            rcases touchesKey_elim k e htk with ⟨evid, tid2, rfl, _⟩ | rfl | rfl <;>
            simp [delayEvents, hdel] at he
      | false =>
        cases hex : storeHas s.store (mkEvalId tid info.evaluator_id) with
        | true =>
          refine ⟨Event.draw (env.draws s.rngIdx) ::
            (delayEvents info ++
              [Event.readCheck (mkEvalId tid info.evaluator_id),
               Event.skipExisting (mkEvalId tid info.evaluator_id)]), ?_⟩
          rw [processTrace_existing env info s c t tid hid hp hre hex]
          refine ⟨rfl, rfl, ?_, ?_, Or.inl ⟨rfl, rfl⟩⟩
          · by_cases hdel : info.delay_ms > 0 <;>
              simp [countUpsertOk, isUpsertOk, delayEvents, hdel]
          · intro e he k htk
            by_cases hdel : info.delay_ms > 0 <;>
              rcases touchesKey_elim k e htk with ⟨evid, tid2, rfl, _⟩ | rfl | rfl <;>
              simp [delayEvents, hdel] at he
        | false =>
          cases hue : env.upsertErr (mkEvalId tid info.evaluator_id) with
          | true =>
            refine ⟨Event.draw (env.draws s.rngIdx) ::
              (delayEvents info ++
                [Event.readCheck (mkEvalId tid info.evaluator_id),
                 Event.score info.evaluator_id tid,
                 Event.upsertFail (mkEvalId tid info.evaluator_id)]), ?_⟩
            rw [processTrace_upsertFail env info s c t tid hid hp hre hex hue]
            refine ⟨rfl, rfl, ?_, ?_, Or.inl ⟨rfl, rfl⟩⟩
            · by_cases hdel : info.delay_ms > 0 <;>
                simp [countUpsertOk, isUpsertOk, delayEvents, hdel]
            · intro e he k htk
              by_cases hdel : info.delay_ms > 0 <;>
                rcases touchesKey_elim k e htk with ⟨evid, tid2, rfl, hkk⟩ | rfl | rfl <;>
                simp [delayEvents, hdel] at he
              all_goals first
                | (obtain ⟨h1, h2⟩ := he
                   rw [← hkk, h1, h2]
                   exact hex)
                | (rw [he]
                   exact hex)
          | false =>
            refine ⟨Event.draw (env.draws s.rngIdx) ::
              (delayEvents info ++
                [Event.readCheck (mkEvalId tid info.evaluator_id),
                 Event.score info.evaluator_id tid,
                 Event.upsertOk (mkEvalId tid info.evaluator_id)]), ?_⟩
            rw [processTrace_persist env info s c t tid hid hp hre hex hue]
            refine ⟨rfl, rfl, ?_, ?_, Or.inr ⟨tid, rfl, hex, rfl, rfl⟩⟩
            · by_cases hdel : info.delay_ms > 0 <;>
                simp [countUpsertOk, isUpsertOk, delayEvents, hdel] <;> omega
            · intro e he k htk
              by_cases hdel : info.delay_ms > 0 <;>
                rcases touchesKey_elim k e htk with ⟨evid, tid2, rfl, hkk⟩ | rfl | rfl <;>
                simp [delayEvents, hdel] at he
              all_goals first
                | (obtain ⟨h1, h2⟩ := he
                   rw [← hkk, h1, h2]
                   exact hex)
                | (rw [he]
                   exact hex)

theorem countUpsertOk_append (a b : List Event) :
    countUpsertOk (a ++ b) = countUpsertOk a + countUpsertOk b := by
  unfold countUpsertOk
  rw [List.filter_append, List.length_append]

theorem foldl_processTrace_master (env : Env) (info : EvInfo) :
    ∀ (docs : List Trace) (s : RunSt) (c : ℕ),
      ∃ new : List Event,
        (docs.foldl (processTrace env info) (s, c)).1.events = s.events ++ new ∧
        (docs.foldl (processTrace env info) (s, c)).1.audits = s.audits ∧
        countUpsertOk new + c = (docs.foldl (processTrace env info) (s, c)).2 ∧
        (∀ k, storeHas s.store k = true →
          storeHas (docs.foldl (processTrace env info) (s, c)).1.store k = true ∧
          countKey (docs.foldl (processTrace env info) (s, c)).1.store k =
            countKey s.store k ∧
          lookupKey (docs.foldl (processTrace env info) (s, c)).1.store k =
            lookupKey s.store k ∧
          ∀ e ∈ new, touchesKey k e = false) ∧
        (∀ d ∈ (docs.foldl (processTrace env info) (s, c)).1.store,
          d ∈ s.store ∨ ∃ tid t2, t2 ∈ docs ∧ effTraceId t2 = Option.some tid ∧
            d = docFor env info tid t2) ∧
        ((∀ k, countKey s.store k ≤ 1) →
          ∀ k, countKey (docs.foldl (processTrace env info) (s, c)).1.store k ≤ 1) := by
  intro docs
  induction docs with
  | nil =>
    intro s c
    refine ⟨[], by simp, rfl, by simp [countUpsertOk], ?_, ?_, ?_⟩
    · intro k hk
      exact ⟨hk, rfl, rfl, by simp⟩
    · intro d hd
      exact Or.inl hd
    · intro h1
      exact h1
  | cons t rest ih =>
    intro s c
    have hfold : (t :: rest).foldl (processTrace env info) (s, c) =
        rest.foldl (processTrace env info) (processTrace env info (s, c) t) := rfl
    obtain ⟨new1, he1, ha1, hc1, ht1, hs1⟩ := processTrace_master env info s c t
    set r := processTrace env info (s, c) t with hr
    have heta : (r.1, r.2) = r := rfl
    obtain ⟨new2, he2, ha2, hc2, hk2, hp2, hu2⟩ := ih r.1 r.2
    rw [heta] at he2 ha2 hc2 hk2 hp2 hu2
    rw [hfold]
    refine ⟨new1 ++ new2, ?_, ha2.trans ha1, ?_, ?_, ?_, ?_⟩
    · rw [he2, he1, List.append_assoc]
    · rw [countUpsertOk_append]
      omega
    · intro k hk
      have hkey : storeHas r.1.store k = true ∧
          countKey r.1.store k = countKey s.store k ∧
          lookupKey r.1.store k = lookupKey s.store k := by
        rcases hs1 with ⟨hst, _⟩ | ⟨tid, _, hnk, hst, _⟩
        · rw [hst]
          exact ⟨hk, rfl, rfl⟩
        · have hne : (docFor env info tid t).id ≠ k := by
            rw [docFor_id]
            intro hcontra
            rw [hcontra] at hnk
            rw [hnk] at hk
            cases hk
          rw [hst]
          exact ⟨storeHas_upsertDoc_mono _ _ _ hk,
            countKey_upsertDoc_ne _ _ _ hne, lookupKey_upsertDoc_ne _ _ _ hne⟩
      obtain ⟨hk2a, hk2b, hk2c, hk2d⟩ := hk2 k hkey.1
      refine ⟨hk2a, hk2b.trans hkey.2.1, hk2c.trans hkey.2.2, ?_⟩
      intro e he
      rcases List.mem_append.1 he with h1 | h1
      · cases htt : touchesKey k e with
        | false => rfl
        | true =>
          have := ht1 e h1 k htt
          rw [this] at hk
          cases hk
      · exact hk2d e h1
    · intro d hd
      rcases hp2 d hd with hmem | ⟨tid, t2, ht2, hefft, hdd⟩
      · rcases hs1 with ⟨hst, _⟩ | ⟨tid, hidt, hnk, hst, _⟩
        · rw [hst] at hmem
          exact Or.inl hmem
        · rw [hst] at hmem
          rcases mem_upsertDoc _ _ _ hmem with h1 | h1
          · exact Or.inl h1
          · exact Or.inr ⟨tid, t, List.mem_cons_self t rest, hidt, h1⟩
      · exact Or.inr ⟨tid, t2, List.mem_cons_of_mem t ht2, hefft, hdd⟩
    · intro h1
      apply hu2
      rcases hs1 with ⟨hst, _⟩ | ⟨tid, _, hnk, hst, _⟩
      · rw [hst]
        exact h1
      · rw [hst]
        exact uniq_upsertDoc _ _ h1

theorem processEvaluator_invalid (env : Env) (docs : List Trace) (n : ℕ)
    (s : RunSt) (ev : Evaluator) (h : validEvaluator ev = false) :
    processEvaluator env docs n s ev = s := by
  unfold processEvaluator
  rw [h]
  simp

theorem processEvaluator_valid_eq (env : Env) (docs : List Trace) (n : ℕ)
    (s : RunSt) (ev : Evaluator) (h : validEvaluator ev = true) :
    processEvaluator env docs n s ev =
      { (docs.foldl (processTrace env (evInfoOf ev)) (s, 0)).1 with
        audits := (docs.foldl (processTrace env (evInfoOf ev)) (s, 0)).1.audits ++
          [mkAudit (evInfoOf ev).evaluator_id
            (docs.foldl (processTrace env (evInfoOf ev)) (s, 0)).2 n] } := by
  unfold processEvaluator
  rw [h]
  simp

theorem processEvaluator_valid (env : Env) (docs : List Trace) (n : ℕ)
    (s : RunSt) (ev : Evaluator) (h : validEvaluator ev = true) :
    ∃ new : List Event, ∃ ex : ℕ,
      (processEvaluator env docs n s ev).events = s.events ++ new ∧
      (processEvaluator env docs n s ev).audits =
        s.audits ++ [mkAudit (evInfoOf ev).evaluator_id ex n] ∧
      countUpsertOk new = ex ∧
      (∀ k, storeHas s.store k = true →
        storeHas (processEvaluator env docs n s ev).store k = true ∧
        countKey (processEvaluator env docs n s ev).store k = countKey s.store k ∧
        lookupKey (processEvaluator env docs n s ev).store k =
          lookupKey s.store k ∧
        ∀ e ∈ new, touchesKey k e = false) ∧
      (∀ d ∈ (processEvaluator env docs n s ev).store,
        d ∈ s.store ∨ ∃ tid t2, t2 ∈ docs ∧ effTraceId t2 = Option.some tid ∧
          d = docFor env (evInfoOf ev) tid t2) ∧
      ((∀ k, countKey s.store k ≤ 1) →
        ∀ k, countKey (processEvaluator env docs n s ev).store k ≤ 1) := by
  obtain ⟨new, he, ha, hc, hk, hp, hu⟩ :=
    foldl_processTrace_master env (evInfoOf ev) docs s 0
  rw [processEvaluator_valid_eq env docs n s ev h]
  exact ⟨new, (docs.foldl (processTrace env (evInfoOf ev)) (s, 0)).2,
    he, by rw [ha], by omega, hk, hp, hu⟩

theorem processEvaluator_any (env : Env) (docs : List Trace) (n : ℕ)
    (s : RunSt) (ev : Evaluator) :
    ∃ new : List Event, ∃ arest : List Audit,
      (processEvaluator env docs n s ev).events = s.events ++ new ∧
      (processEvaluator env docs n s ev).audits = s.audits ++ arest ∧
      (∀ k, storeHas s.store k = true →
        storeHas (processEvaluator env docs n s ev).store k = true ∧
        countKey (processEvaluator env docs n s ev).store k = countKey s.store k ∧
        lookupKey (processEvaluator env docs n s ev).store k =
          lookupKey s.store k ∧
        ∀ e ∈ new, touchesKey k e = false) ∧
      (∀ d ∈ (processEvaluator env docs n s ev).store,
        d ∈ s.store ∨ ∃ tid t2, t2 ∈ docs ∧ effTraceId t2 = Option.some tid ∧
          d = docFor env (evInfoOf ev) tid t2) ∧
      ((∀ k, countKey s.store k ≤ 1) →
        ∀ k, countKey (processEvaluator env docs n s ev).store k ≤ 1) := by
  cases hv : validEvaluator ev with
  | false =>
    rw [processEvaluator_invalid env docs n s ev hv]
    exact ⟨[], [], by simp, by simp,
      fun k hk => ⟨hk, rfl, rfl, by simp⟩, fun d hd => Or.inl hd, fun h1 => h1⟩
  | true =>
    obtain ⟨new, ex, he, ha, _, hk, hp, hu⟩ :=
      processEvaluator_valid env docs n s ev hv
    exact ⟨new, [mkAudit (evInfoOf ev).evaluator_id ex n], he, ha, hk, hp, hu⟩

theorem runEvaluators_master (env : Env) (docs : List Trace) (n : ℕ) :
    ∀ (evs : List Evaluator) (s : RunSt),
      ∃ new : List Event, ∃ arest : List Audit,
        (runEvaluators env docs n s evs).events = s.events ++ new ∧
        (runEvaluators env docs n s evs).audits = s.audits ++ arest ∧
        (∀ k, storeHas s.store k = true →
          storeHas (runEvaluators env docs n s evs).store k = true ∧
          countKey (runEvaluators env docs n s evs).store k = countKey s.store k ∧
          lookupKey (runEvaluators env docs n s evs).store k =
            lookupKey s.store k ∧
          ∀ e ∈ new, touchesKey k e = false) ∧
        (∀ d ∈ (runEvaluators env docs n s evs).store,
          d ∈ s.store ∨ ∃ ev tid t2, ev ∈ evs ∧ t2 ∈ docs ∧
            effTraceId t2 = Option.some tid ∧ d = docFor env (evInfoOf ev) tid t2) ∧
        ((∀ k, countKey s.store k ≤ 1) →
          ∀ k, countKey (runEvaluators env docs n s evs).store k ≤ 1) := by
  intro evs
  induction evs with
  | nil =>
    intro s
    exact ⟨[], [], by simp [runEvaluators], by simp [runEvaluators],
      fun k hk => ⟨hk, rfl, rfl, by simp⟩, fun d hd => Or.inl hd, fun h1 => h1⟩
  | cons ev evs ih =>
    intro s
    have hfold : runEvaluators env docs n s (ev :: evs) =
        runEvaluators env docs n (processEvaluator env docs n s ev) evs := rfl
    obtain ⟨new1, arest1, he1, ha1, hk1, hp1, hu1⟩ :=
      processEvaluator_any env docs n s ev
    set s1 := processEvaluator env docs n s ev with hs1
    obtain ⟨new2, arest2, he2, ha2, hk2, hp2, hu2⟩ := ih s1
    rw [hfold]
    refine ⟨new1 ++ new2, arest1 ++ arest2, ?_, ?_, ?_, ?_, ?_⟩
    · rw [he2, he1, List.append_assoc]
    · rw [ha2, ha1, List.append_assoc]
    · intro k hk
      obtain ⟨ha, hb, hc, hd⟩ := hk1 k hk
      obtain ⟨ha2b, hb2, hc2, hd2⟩ := hk2 k ha
      refine ⟨ha2b, hb2.trans hb, hc2.trans hc, ?_⟩
      intro e he
      rcases List.mem_append.1 he with h1 | h1
      · exact hd e h1
      · exact hd2 e h1
    · intro d hd
      rcases hp2 d hd with hmem | ⟨ev2, tid, t2, hev2, ht2, heff, hdd⟩
      · rcases hp1 d hmem with hmem2 | ⟨tid, t2, ht2, heff, hdd⟩
        · exact Or.inl hmem2
        · exact Or.inr ⟨ev, tid, t2, List.mem_cons_self ev evs, ht2, heff, hdd⟩
      · exact Or.inr ⟨ev2, tid, t2, List.mem_cons_of_mem ev hev2, ht2, heff, hdd⟩
    · intro h1
      exact hu2 (hu1 h1)

theorem runPipeline_eq (env : Env) (docs : List Trace) (evs : List Evaluator)
    (s : RunSt) (hd : docs ≠ []) (he : evs ≠ []) :
    runPipeline env docs evs s = runEvaluators env docs docs.length s evs := by
  unfold runPipeline
  rw [if_neg (by simpa using hd), if_neg (by simpa using he)]

theorem runPipeline_master (env : Env) (docs : List Trace) (evs : List Evaluator)
    (s : RunSt) :
    ∃ new : List Event, ∃ arest : List Audit,
      (runPipeline env docs evs s).events = s.events ++ new ∧
      (runPipeline env docs evs s).audits = s.audits ++ arest ∧
      (∀ k, storeHas s.store k = true →
        storeHas (runPipeline env docs evs s).store k = true ∧
        countKey (runPipeline env docs evs s).store k = countKey s.store k ∧
        lookupKey (runPipeline env docs evs s).store k = lookupKey s.store k ∧
        ∀ e ∈ new, touchesKey k e = false) ∧
      (∀ d ∈ (runPipeline env docs evs s).store,
        d ∈ s.store ∨ ∃ ev tid t2, ev ∈ evs ∧ t2 ∈ docs ∧
          effTraceId t2 = Option.some tid ∧ d = docFor env (evInfoOf ev) tid t2) ∧
      ((∀ k, countKey s.store k ≤ 1) →
        ∀ k, countKey (runPipeline env docs evs s).store k ≤ 1) := by
  by_cases hd : docs = []
  · refine ⟨[], [], ?_⟩
    rw [show runPipeline env docs evs s = s by unfold runPipeline; simp [hd]]
    exact ⟨by simp, by simp, fun k hk => ⟨hk, rfl, rfl, by simp⟩,
      fun d hdm => Or.inl hdm, fun h1 => h1⟩
  · by_cases he : evs = []
    · refine ⟨[], [], ?_⟩
      rw [show runPipeline env docs evs s = s by unfold runPipeline; simp [he]]
      exact ⟨by simp, by simp, fun k hk => ⟨hk, rfl, rfl, by simp⟩,
        fun d hdm => Or.inl hdm, fun h1 => h1⟩
    · rw [runPipeline_eq env docs evs s hd he]
      exact runEvaluators_master env docs docs.length evs s

theorem rndHalfEven_close (x : ℚ) : |(rndHalfEven x : ℚ) - x| ≤ 1/2 := by
  have h0 : (⌊x⌋ : ℚ) ≤ x := Int.floor_le x
  have h1 : x < ⌊x⌋ + 1 := Int.lt_floor_add_one x
  unfold rndHalfEven
  dsimp only
  split_ifs with ha hb hc
  all_goals rw [abs_le]
  all_goals constructor
  all_goals push_cast
  all_goals linarith

theorem pyRound2_grid (q : ℚ) : ∃ z : ℤ, pyRound2 q = (z : ℚ) / 100 :=
  ⟨rndHalfEven (100 * q), rfl⟩

theorem pyRound2_close (q : ℚ) : |pyRound2 q - q| ≤ 1/200 := by
  have h := rndHalfEven_close (100 * q)
  have h2 : pyRound2 q - q = ((rndHalfEven (100 * q) : ℚ) - 100 * q) / 100 := by
    unfold pyRound2
    ring
  rw [h2, abs_div, abs_of_pos (show (0:ℚ) < 100 by norm_num),
    div_le_iff₀ (show (0:ℚ) < 100 by norm_num)]
  linarith

theorem pyRound2_example : pyRound2 (8333333/10000000) = 83/100 := by
  norm_num [pyRound2, rndHalfEven, Int.floor_eq_iff]

theorem llm_go_allRaised (f : ℕ → LlmAttempt) (mr : ℕ) :
    ∀ (fuel attempt : ℕ), mr + 1 - attempt ≤ fuel → attempt ≤ mr →
      (∀ k, attempt ≤ k → k ≤ mr → ∃ m, f k = LlmAttempt.raised m) →
      llm_go f mr fuel attempt =
        { result := Option.none, attempts := mr + 1 - attempt
          sleeps := (List.range (mr - attempt)).map (fun i => 2 ^ (attempt + 1 + i)) } := by
  intro fuel
  induction fuel with
  | zero =>
    intro attempt hf ha _
    exfalso
    omega
  | succ fuel ih =>
    intro attempt hf ha hall
    obtain ⟨m, hm⟩ := hall attempt le_rfl ha
    unfold llm_go
    rw [if_pos ha, hm]
    by_cases hnext : attempt + 1 ≤ mr
    · rw [if_pos hnext,
        ih (attempt + 1) (by omega) hnext (fun k hk1 hk2 => hall k (by omega) hk2)]
      simp only [LlmRun.mk.injEq]
      refine ⟨trivial, by omega, ?_⟩
      have hn : mr - attempt = (mr - (attempt + 1)) + 1 := by omega
      rw [hn, List.range_succ_eq_map, List.map_cons, List.map_map]
      refine congrArg₂ List.cons (by norm_num) ?_
      apply List.map_congr_left
      intro i _
      simp only [Function.comp]
      congr 1
      omega
    · rw [if_neg hnext]
      have h1 : mr + 1 - attempt = 1 := by omega
      have h2 : mr - attempt = 0 := by omega
      simp [h1, h2]

theorem call_llm_allRaised (f : ℕ → LlmAttempt) (mr : ℕ)
    (h : ∀ k, k ≤ mr → ∃ m, f k = LlmAttempt.raised m) :
    call_llm f mr =
      { result := Option.none, attempts := mr + 1
        sleeps := (List.range mr).map (fun i => 2 ^ (1 + i)) } := by
  unfold call_llm
  rw [llm_go_allRaised f mr (mr + 1) 0 (by omega) (Nat.zero_le mr)
    (fun k _ hk2 => h k hk2)]
  simp

theorem llm_go_emptyContent (f : ℕ → LlmAttempt) (mr : ℕ) :
    ∀ (fuel attempt j : ℕ), attempt ≤ j → j ≤ mr → mr + 1 - attempt ≤ fuel →
      (∀ k, attempt ≤ k → k < j → ∃ m, f k = LlmAttempt.raised m) →
      f j = LlmAttempt.ok "" →
      (llm_go f mr fuel attempt).result = Option.none := by
  intro fuel
  induction fuel with
  | zero =>
    intro attempt j haj hj hf _ _
    rfl
  | succ fuel ih =>
    intro attempt j haj hj hf hall hok
    unfold llm_go
    rw [if_pos (le_trans haj hj)]
    by_cases hj0 : attempt = j
    · rw [hj0, hok]
      simp
    · obtain ⟨m, hm⟩ := hall attempt le_rfl (by omega)
      rw [hm]
      by_cases hnext : attempt + 1 ≤ mr
      · rw [if_pos hnext]
        exact ih (attempt + 1) j (by omega) hj (by omega)
          (fun k hk1 hk2 => hall k (by omega) hk2) hok
      · rw [if_neg hnext]

theorem call_llm_emptyContent (f : ℕ → LlmAttempt) (mr j : ℕ) (hj : j ≤ mr)
    (hall : ∀ k, k < j → ∃ m, f k = LlmAttempt.raised m)
    (hok : f j = LlmAttempt.ok "") :
    (call_llm f mr).result = Option.none := by
  unfold call_llm
  exact llm_go_emptyContent f mr (mr + 1) 0 j (Nat.zero_le j) hj (by omega)
    (fun k _ hk2 => hall k hk2) hok

theorem pairwise_lt_backoff (n : ℕ) :
    List.Pairwise (· < ·) ((List.range n).map (fun i => 2 ^ (1 + i))) := by
  refine List.Pairwise.map _ ?_ (List.pairwise_lt_range n)
  intro a b hab
  dsimp only
  exact Nat.pow_lt_pow_right (by norm_num) (by omega)

theorem docFor_ok (env : Env) (info : EvInfo) (tid : String) (t : Trace)
    (sc : Val) (ro cl : Option String)
    (h : env.runEval info.evaluator_id (normalize_trace t) =
      ScoreOutcome.ok sc ro cl) :
    docFor env info tid t =
      { id := mkEvalId tid info.evaluator_id
        trace_id := tid
        evaluator := info.evaluator_name
        evaluator_id := info.evaluator_id
        template_id := info.template_id
        score := persistScore sc
        classification := cl
        raw_output := ro
        status := if cl = Option.some "failed" then "failed" else "completed"
        duration_ms := env.duration (mkEvalId tid info.evaluator_id)
        timestamp := env.stamp (mkEvalId tid info.evaluator_id) } := by
  unfold docFor
  rw [h]

theorem passesSampling_true_iff (rate draw : ℚ) :
    passesSampling rate draw = true ↔ draw ≤ rate := by
  unfold passesSampling
  simp [not_lt]

theorem passesSampling_false_iff (rate draw : ℚ) :
    passesSampling rate draw = false ↔ rate < draw := by
  unfold passesSampling
  simp

/-- C1: for every (trace_id, evaluator_id) pair the completed pipeline leaves
at most one Evaluation record, and a second run of the same batch against the
same catalog adds no record for any key persisted by the first run: the
point read keyed by `trace_id ++ ":" ++ evaluator_id` finds the record and
the unit performs no scoring and no write for that key. -/
theorem c1_idempotency (env env2 : Env) (docs : List Trace)
    (evs : List Evaluator) (s0 : RunSt)
    (h1 : ∀ k, countKey s0.store k ≤ 1)
    (h2 : ∀ d ∈ s0.store, d.id = mkEvalId d.trace_id d.evaluator_id) :
    (∀ t e, countPair (runPipeline env docs evs s0).store t e ≤ 1) ∧
    (∀ k, storeHas (runPipeline env docs evs s0).store k = true →
      countKey (runPipeline env2 docs evs (runPipeline env docs evs s0)).store k =
        countKey (runPipeline env docs evs s0).store k ∧
      lookupKey (runPipeline env2 docs evs (runPipeline env docs evs s0)).store k =
        lookupKey (runPipeline env docs evs s0).store k ∧
      ∃ new, (runPipeline env2 docs evs (runPipeline env docs evs s0)).events =
        (runPipeline env docs evs s0).events ++ new ∧
        ∀ e2 ∈ new, touchesKey k e2 = false) := by
  obtain ⟨new1, arest1, he1, ha1, hk1, hp1, hu1⟩ := runPipeline_master env docs evs s0
  set s1 := runPipeline env docs evs s0 with hs1
  obtain ⟨new2, arest2, he2, ha2, hk2, hp2, hu2⟩ := runPipeline_master env2 docs evs s1
  constructor
  · intro t e
    have hcons : ∀ d ∈ s1.store, d.id = mkEvalId d.trace_id d.evaluator_id := by
      intro d hd
      rcases hp1 d hd with hmem | ⟨ev, tid, t2, _, _, _, hdd⟩
      · exact h2 d hmem
      · rw [hdd, docFor_id, docFor_trace_id, docFor_evaluator_id]
    calc countPair s1.store t e
        ≤ countKey s1.store (mkEvalId t e) := countPair_le_countKey _ _ _ hcons
      _ ≤ 1 := hu1 h1 _
  · intro k hk
    obtain ⟨hka, hkb, hkc, hkd⟩ := hk2 k hk
    exact ⟨hkb, hkc, new2, he2, hkd⟩

theorem c1_idempotency_witness :
    (∀ t e, countPair (runPipeline testEnv [traceT1] [evalOne] initSt).store t e ≤ 1) ∧
    (∀ k, storeHas (runPipeline testEnv [traceT1] [evalOne] initSt).store k = true →
      countKey (runPipeline testEnv [traceT1] [evalOne]
          (runPipeline testEnv [traceT1] [evalOne] initSt)).store k =
        countKey (runPipeline testEnv [traceT1] [evalOne] initSt).store k ∧
      lookupKey (runPipeline testEnv [traceT1] [evalOne]
          (runPipeline testEnv [traceT1] [evalOne] initSt)).store k =
        lookupKey (runPipeline testEnv [traceT1] [evalOne] initSt).store k ∧
      ∃ new, (runPipeline testEnv [traceT1] [evalOne]
          (runPipeline testEnv [traceT1] [evalOne] initSt)).events =
        (runPipeline testEnv [traceT1] [evalOne] initSt).events ++ new ∧
        ∀ e2 ∈ new, touchesKey k e2 = false) :=
  c1_idempotency testEnv testEnv [traceT1] [evalOne] initSt
    (fun k => by simp [initSt, countKey]) (fun d hd => by simp [initSt] at hd)

/-- C2 counterexample: in the azure-functions variant the sampling gate does
not clamp: with the configured rate -1/2 (outside [0,1]) and the valid
uniform draw 0, the gate rejects the trace and a one-trace batch run
executes nothing at all, refuting that every trace passes. -/
theorem c2_counterexample :
    (evalNegRate.sampling_rate = Option.some (-(1/2)) ∧ (-(1/2) : ℚ) < 0) ∧
    ((0:ℚ) ≤ 0 ∧ (0:ℚ) < 1) ∧
    passesSampling (-(1/2)) 0 = false ∧
    (runPipeline testEnv [traceT1] [evalNegRate] initSt).store = [] ∧
    countUpsertOk (runPipeline testEnv [traceT1] [evalNegRate] initSt).events = 0 := by
  have hgate : passesSampling (-(1/2)) 0 = false :=
    (passesSampling_false_iff _ _).2 (by norm_num)
  have hval : validEvaluator evalNegRate = true := rfl
  have heff : effTraceId traceT1 = Option.some "t1" := rfl
  have hgate2 : passesSampling (evInfoOf evalNegRate).sampling_rate
      (testEnv.draws initSt.rngIdx) = false := hgate
  refine ⟨⟨rfl, by norm_num⟩, ⟨le_refl 0, by norm_num⟩, hgate, ?_, ?_⟩
  all_goals
    rw [runPipeline_eq _ _ _ _ (by simp) (by simp),
      show runEvaluators testEnv [traceT1] [traceT1].length initSt [evalNegRate] =
        processEvaluator testEnv [traceT1] [traceT1].length initSt evalNegRate
        from rfl,
      processEvaluator_valid_eq _ _ _ _ _ hval,
      show ([traceT1].foldl (processTrace testEnv (evInfoOf evalNegRate))
          (initSt, 0)) =
        processTrace testEnv (evInfoOf evalNegRate) (initSt, 0) traceT1 from rfl,
      processTrace_sampledOut testEnv (evInfoOf evalNegRate) initSt 0 traceT1
        "t1" heff hgate2]
  · rfl
  · simp [countUpsertOk, isUpsertOk, initSt]

/-- C2 amended: only the backend variant clamps an out-of-range sampling
rate to 1.0 so that every draw in [0,1) passes; the azure-functions variant
compares the raw rate, so a rate above 1 passes every draw but a negative
rate passes none (it fails closed, not open). -/
theorem c2_amended :
    (∀ (r d : ℚ), (r < 0 ∨ 1 < r) → 0 ≤ d → d < 1 →
      passesSamplingBackend (Option.some r) d = true) ∧
    (∀ (r d : ℚ), 1 < r → d < 1 → passesSampling r d = true) ∧
    (∀ (r d : ℚ), r < 0 → 0 ≤ d → passesSampling r d = false) := by
  refine ⟨?_, ?_, ?_⟩
  · intro r d hr h0 h1
    unfold passesSamplingBackend clampRateBackend
    have hcl : (if (Option.some r).getD 1 < 0 ∨ (Option.some r).getD 1 > 1
        then (1:ℚ) else (Option.some r).getD 1) = 1 := by
      rcases hr with hr | hr <;> simp [hr]
    rw [hcl]
    exact (passesSampling_true_iff _ _).2 (le_of_lt h1)
  · intro r d hr hd
    exact (passesSampling_true_iff _ _).2 (le_of_lt (lt_trans hd hr))
  · intro r d hr hd
    exact (passesSampling_false_iff _ _).2 (lt_of_lt_of_le hr hd)

theorem c2_amended_witness :
    passesSamplingBackend (Option.some 2) (1/2) = true ∧
    passesSampling 2 (1/2) = true ∧
    passesSampling (-(1/2)) 0 = false :=
  ⟨c2_amended.1 2 (1/2) (Or.inr (by norm_num)) (by norm_num) (by norm_num),
   c2_amended.2.1 2 (1/2) (by norm_num) (by norm_num),
   c2_amended.2.2 (-(1/2)) 0 (by norm_num) (by norm_num)⟩

/-- C3 counterexample: with sampling_rate 0.0 the gate does not reject every
possible uniform draw: the draw 0 (a valid value of random.random()) passes
the gate, and a concrete one-trace run with that draw executes one unit and
persists one record, refuting that zero units are executed. -/
theorem c3_counterexample :
    ((0:ℚ) ≤ 0 ∧ (0:ℚ) < 1) ∧
    evalZeroRate.sampling_rate = Option.some 0 ∧
    passesSampling 0 0 = true ∧
    countUpsertOk (runPipeline testEnv [traceT1] [evalZeroRate] initSt).events = 1 ∧
    (runPipeline testEnv [traceT1] [evalZeroRate] initSt).store ≠ [] := by
  have hgate : passesSampling 0 0 = true :=
    (passesSampling_true_iff _ _).2 le_rfl
  have hval : validEvaluator evalZeroRate = true := rfl
  have heff : effTraceId traceT1 = Option.some "t1" := rfl
  have hgate2 : passesSampling (evInfoOf evalZeroRate).sampling_rate
      (testEnv.draws initSt.rngIdx) = true := hgate
  have hre : testEnv.readErr
      (mkEvalId "t1" (evInfoOf evalZeroRate).evaluator_id) = false := rfl
  have hex : storeHas initSt.store
      (mkEvalId "t1" (evInfoOf evalZeroRate).evaluator_id) = false := rfl
  have hue : testEnv.upsertErr
      (mkEvalId "t1" (evInfoOf evalZeroRate).evaluator_id) = false := rfl
  refine ⟨⟨le_refl 0, by norm_num⟩, rfl, hgate, ?_, ?_⟩
  all_goals
    rw [runPipeline_eq _ _ _ _ (by simp) (by simp),
      show runEvaluators testEnv [traceT1] [traceT1].length initSt [evalZeroRate] =
        processEvaluator testEnv [traceT1] [traceT1].length initSt evalZeroRate
        from rfl,
      processEvaluator_valid_eq _ _ _ _ _ hval,
      show ([traceT1].foldl (processTrace testEnv (evInfoOf evalZeroRate))
          (initSt, 0)) =
        processTrace testEnv (evInfoOf evalZeroRate) (initSt, 0) traceT1 from rfl,
      processTrace_persist testEnv (evInfoOf evalZeroRate) initSt 0 traceT1
        "t1" heff hgate2 hre hex hue]
  · simp [countUpsertOk, isUpsertOk, initSt, delayEvents]
  · simp [upsertDoc, storeHas, initSt]

/-- C3 amended: with sampling_rate 0.0 a unit runs exactly when the uniform
draw is exactly 0 (so zero units for every positive draw, but not for every
possible draw); with sampling_rate 1.0 every draw in [0,1) passes and the
unit is attempted, reaching the idempotency point read. -/
theorem c3_amended :
    (∀ d : ℚ, 0 ≤ d → (passesSampling 0 d = true ↔ d = 0)) ∧
    (∀ d : ℚ, d < 1 → passesSampling 1 d = true) ∧
    (∀ (env : Env) (info : EvInfo) (s : RunSt) (c : ℕ) (t : Trace)
        (tid : String),
      effTraceId t = Option.some tid → info.sampling_rate = 1 →
      env.draws s.rngIdx < 1 →
      Event.readCheck (mkEvalId tid info.evaluator_id) ∈
        (processTrace env info (s, c) t).1.events) := by
  refine ⟨?_, ?_, ?_⟩
  · intro d h0
    rw [passesSampling_true_iff]
    constructor
    · intro h1
      linarith
    · intro h1
      rw [h1]
  · intro d hd
    exact (passesSampling_true_iff _ _).2 (le_of_lt hd)
  · intro env info s c t tid hid hrate hdraw
    have hp : passesSampling info.sampling_rate (env.draws s.rngIdx) = true := by
      rw [hrate]
      exact (passesSampling_true_iff _ _).2 (le_of_lt hdraw)
    cases hre : env.readErr (mkEvalId tid info.evaluator_id) with
    | true =>
      rw [processTrace_readErrCase env info s c t tid hid hp hre]
      simp
    | false =>
      cases hex : storeHas s.store (mkEvalId tid info.evaluator_id) with
      | true =>
        rw [processTrace_existing env info s c t tid hid hp hre hex]
        simp
      | false =>
        cases hue : env.upsertErr (mkEvalId tid info.evaluator_id) with
        | true =>
          rw [processTrace_upsertFail env info s c t tid hid hp hre hex hue]
          simp
        | false =>
          rw [processTrace_persist env info s c t tid hid hp hre hex hue]
          simp

theorem c3_amended_witness :
    (passesSampling 0 (1/2) = true ↔ ((1/2 : ℚ) = 0)) ∧
    passesSampling 1 (1/2) = true ∧
    Event.readCheck (mkEvalId "t1" (evInfoOf evalOne).evaluator_id) ∈
      (processTrace testEnv (evInfoOf evalOne) (initSt, 0) traceT1).1.events :=
  ⟨c3_amended.1 (1/2) (by norm_num),
   c3_amended.2.1 (1/2) (by norm_num),
   c3_amended.2.2 testEnv (evInfoOf evalOne) initSt 0 traceT1 "t1"
     (by simp [effTraceId, pyOr, truthy, traceT1]) rfl
     (by norm_num [testEnv, constDraws, initSt])⟩

/-- C4: a scoring-engine exception for one unit is captured: the unit still
persists a record with score None, raw_output the failure message,
classification failed and status failed, the unit counts as executed, and a
later trace of the same batch whose scoring succeeds is still scored and
persisted normally. -/
theorem c4_failure_capture :
    (∀ (env : Env) (info : EvInfo) (s : RunSt) (c : ℕ) (t : Trace)
        (tid m : String),
      effTraceId t = Option.some tid →
      passesSampling info.sampling_rate (env.draws s.rngIdx) = true →
      env.readErr (mkEvalId tid info.evaluator_id) = false →
      storeHas s.store (mkEvalId tid info.evaluator_id) = false →
      env.runEval info.evaluator_id (normalize_trace t) = ScoreOutcome.exn m →
      env.upsertErr (mkEvalId tid info.evaluator_id) = false →
      ∃ d : EvalDoc,
        lookupKey (processTrace env info (s, c) t).1.store
          (mkEvalId tid info.evaluator_id) = Option.some d ∧
        d.score = Val.none ∧ d.raw_output = Option.some m ∧
        d.classification = Option.some "failed" ∧ d.status = "failed" ∧
        (processTrace env info (s, c) t).2 = c + 1) ∧
    (∀ (env : Env) (info : EvInfo) (s : RunSt) (c : ℕ) (t1 t2 : Trace)
        (tid1 tid2 m : String) (sc : Val) (ro cl : Option String),
      effTraceId t1 = Option.some tid1 →
      effTraceId t2 = Option.some tid2 →
      passesSampling info.sampling_rate (env.draws s.rngIdx) = true →
      passesSampling info.sampling_rate (env.draws (s.rngIdx + 1)) = true →
      mkEvalId tid1 info.evaluator_id ≠ mkEvalId tid2 info.evaluator_id →
      env.readErr (mkEvalId tid1 info.evaluator_id) = false →
      env.readErr (mkEvalId tid2 info.evaluator_id) = false →
      storeHas s.store (mkEvalId tid1 info.evaluator_id) = false →
      storeHas s.store (mkEvalId tid2 info.evaluator_id) = false →
      env.runEval info.evaluator_id (normalize_trace t1) = ScoreOutcome.exn m →
      env.runEval info.evaluator_id (normalize_trace t2) =
        ScoreOutcome.ok sc ro cl →
      env.upsertErr (mkEvalId tid1 info.evaluator_id) = false →
      env.upsertErr (mkEvalId tid2 info.evaluator_id) = false →
      ∃ d1 d2 : EvalDoc,
        lookupKey ([t1, t2].foldl (processTrace env info) (s, c)).1.store
          (mkEvalId tid1 info.evaluator_id) = Option.some d1 ∧
        d1.status = "failed" ∧ d1.score = Val.none ∧
        d1.raw_output = Option.some m ∧
        lookupKey ([t1, t2].foldl (processTrace env info) (s, c)).1.store
          (mkEvalId tid2 info.evaluator_id) = Option.some d2 ∧
        d2.score = persistScore sc ∧ d2.classification = cl ∧
        d2.raw_output = ro ∧
        d2.status = (if cl = Option.some "failed" then "failed"
          else "completed") ∧
        ([t1, t2].foldl (processTrace env info) (s, c)).2 = c + 2) := by
  constructor
  · intro env info s c t tid m hid hp hre hex hrun hue
    rw [processTrace_persist env info s c t tid hid hp hre hex hue]
    have hdoc := docFor_exn env info tid t m hrun
    have hhas : storeHas s.store (docFor env info tid t).id = false := by
      rw [docFor_id]
      exact hex
    refine ⟨docFor env info tid t, ?_, ?_, ?_, ?_, ?_, rfl⟩
    · have hl := lookupKey_upsertDoc_self s.store (docFor env info tid t) hhas
      rw [docFor_id] at hl
      exact hl
    · rw [hdoc]
    · rw [hdoc]
    · rw [hdoc]
    · rw [hdoc]
  · intro env info s c t1 t2 tid1 tid2 m sc ro cl hid1 hid2 hpa hpb hkk
      hre1 hre2 hex1 hex2 hrun1 hrun2 hue1 hue2
    have hdoc1 := docFor_exn env info tid1 t1 m hrun1
    have hdoc2 := docFor_ok env info tid2 t2 sc ro cl hrun2
    have hd1id : (docFor env info tid1 t1).id = mkEvalId tid1 info.evaluator_id :=
      docFor_id env info tid1 t1
    have hd2id : (docFor env info tid2 t2).id = mkEvalId tid2 info.evaluator_id :=
      docFor_id env info tid2 t2
    have step1 := processTrace_persist env info s c t1 tid1 hid1 hpa hre1 hex1 hue1
    obtain ⟨s1, c1, hstep1⟩ :
        ∃ s1 c1, processTrace env info (s, c) t1 = (s1, c1) := ⟨_, _, rfl⟩
    have hpair := step1.symm.trans hstep1
    have hs1store := congrArg (fun p => p.1.store) hpair
    have hs1rng := congrArg (fun p => p.1.rngIdx) hpair
    have hc1 := congrArg (fun p => p.2) hpair
    dsimp only at hs1store hs1rng hc1
    have hp2 : passesSampling info.sampling_rate (env.draws s1.rngIdx) = true := by
      rw [← hs1rng]
      exact hpb
    have hex2b : storeHas s1.store (mkEvalId tid2 info.evaluator_id) = false := by
      rw [← hs1store, storeHas_upsertDoc_ne _ _ _ (by rw [hd1id]; exact hkk)]
      exact hex2
    have step2 := processTrace_persist env info s1 c1 t2 tid2 hid2 hp2 hre2
      hex2b hue2
    have hfold : ([t1, t2].foldl (processTrace env info) (s, c)) =
        processTrace env info (processTrace env info (s, c) t1) t2 := rfl
    rw [hfold, hstep1, step2]
    dsimp only
    have hhas2 : storeHas s1.store (docFor env info tid2 t2).id = false := by
      rw [hd2id]
      exact hex2b
    refine ⟨docFor env info tid1 t1, docFor env info tid2 t2, ?_, ?_, ?_, ?_,
      ?_, ?_, ?_, ?_, ?_, ?_⟩
    · rw [lookupKey_upsertDoc_ne _ _ _ (by rw [hd2id]; exact (Ne.symm hkk)),
        ← hs1store]
      have hl := lookupKey_upsertDoc_self s.store (docFor env info tid1 t1)
        (by rw [hd1id]; exact hex1)
      rw [hd1id] at hl
      exact hl
    · rw [hdoc1]
    · rw [hdoc1]
    · rw [hdoc1]
    · have hl := lookupKey_upsertDoc_self s1.store (docFor env info tid2 t2) hhas2
      rw [hd2id] at hl
      exact hl
    · rw [hdoc2]
    · rw [hdoc2]
    · rw [hdoc2]
    · rw [hdoc2]
    · rw [← hc1]

theorem c4_failure_capture_witness :
    ∃ d1 d2 : EvalDoc,
      lookupKey ([traceT1, traceT2].foldl
          (processTrace mixEnv (evInfoOf evalOne)) (initSt, 0)).1.store
        (mkEvalId "t1" (evInfoOf evalOne).evaluator_id) = Option.some d1 ∧
      d1.status = "failed" ∧ d1.score = Val.none ∧
      d1.raw_output = Option.some "boom" ∧
      lookupKey ([traceT1, traceT2].foldl
          (processTrace mixEnv (evInfoOf evalOne)) (initSt, 0)).1.store
        (mkEvalId "t2" (evInfoOf evalOne).evaluator_id) = Option.some d2 ∧
      d2.score = persistScore (Val.num 1) ∧
      d2.classification = Option.some "good" ∧
      d2.raw_output = Option.some "ok" ∧
      d2.status = (if (Option.some "good" : Option String) =
        Option.some "failed" then "failed" else "completed") ∧
      ([traceT1, traceT2].foldl
        (processTrace mixEnv (evInfoOf evalOne)) (initSt, 0)).2 = 0 + 2 :=
  c4_failure_capture.2 mixEnv (evInfoOf evalOne) initSt 0 traceT1 traceT2
    "t1" "t2" "boom" (Val.num 1) (Option.some "ok") (Option.some "good")
    rfl rfl
    ((passesSampling_true_iff _ _).2 (by norm_num [mixEnv, constDraws, initSt,
      evInfoOf, evalOne]))
    ((passesSampling_true_iff _ _).2 (by norm_num [mixEnv, constDraws, initSt,
      evInfoOf, evalOne]))
    (by decide) rfl rfl rfl rfl rfl rfl rfl rfl

/-- C5: every validly configured evaluator contributes exactly one audit
entry, emitted after its whole batch segment, with action, type and user as
specified and details built from its evaluator id, the number of units whose
upsert succeeded in that segment, and the raw batch length. -/
theorem c5_audit (env : Env) (docs : List Trace) (evs1 evs2 : List Evaluator)
    (ev : Evaluator) (s0 : RunSt) (hd : docs ≠ [])
    (hv : validEvaluator ev = true) :
    ∃ ex : ℕ, ∃ arest : List Audit,
      (processEvaluator env docs docs.length
          (runEvaluators env docs docs.length s0 evs1) ev).audits =
        (runEvaluators env docs docs.length s0 evs1).audits ++
          [{ action := "Evaluator Run Completed", type := "evaluator"
             user := "system"
             details := auditDetails (evInfoOf ev).evaluator_id ex
               docs.length }] ∧
      countUpsertOk (processEvaluator env docs docs.length
          (runEvaluators env docs docs.length s0 evs1) ev).events =
        countUpsertOk (runEvaluators env docs docs.length s0 evs1).events +
          ex ∧
      (runPipeline env docs (evs1 ++ ev :: evs2) s0).audits =
        (processEvaluator env docs docs.length
          (runEvaluators env docs docs.length s0 evs1) ev).audits ++ arest := by
  obtain ⟨new, ex, he, ha, hc, _, _, _⟩ := processEvaluator_valid env docs
    docs.length (runEvaluators env docs docs.length s0 evs1) ev hv
  obtain ⟨new2, arest2, _, ha2, _, _, _⟩ := runEvaluators_master env docs
    docs.length evs2 (processEvaluator env docs docs.length
      (runEvaluators env docs docs.length s0 evs1) ev)
  refine ⟨ex, arest2, ?_, ?_, ?_⟩
  · rw [ha]
    rfl
  · rw [he, countUpsertOk_append, hc]
  · rw [runPipeline_eq env docs (evs1 ++ ev :: evs2) s0 hd (by simp)]
    unfold runEvaluators
    rw [List.foldl_append]
    exact ha2

theorem c5_audit_witness :
    ∃ ex : ℕ, ∃ arest : List Audit,
      (processEvaluator testEnv [traceT1] [traceT1].length
          (runEvaluators testEnv [traceT1] [traceT1].length initSt []) evalOne).audits =
        (runEvaluators testEnv [traceT1] [traceT1].length initSt []).audits ++
          [{ action := "Evaluator Run Completed", type := "evaluator"
             user := "system"
             details := auditDetails (evInfoOf evalOne).evaluator_id ex
               [traceT1].length }] ∧
      countUpsertOk (processEvaluator testEnv [traceT1] [traceT1].length
          (runEvaluators testEnv [traceT1] [traceT1].length initSt []) evalOne).events =
        countUpsertOk (runEvaluators testEnv [traceT1] [traceT1].length
          initSt []).events + ex ∧
      (runPipeline testEnv [traceT1] ([] ++ evalOne :: []) initSt).audits =
        (processEvaluator testEnv [traceT1] [traceT1].length
          (runEvaluators testEnv [traceT1] [traceT1].length initSt [])
          evalOne).audits ++ arest :=
  c5_audit testEnv [traceT1] [] [] evalOne initSt (by simp) rfl

/-- C6: when every attempt raises, call_llm with maxRetries n makes exactly
n + 1 attempts, sleeps 2 ^ attempt seconds between consecutive attempts in
strictly increasing order, and returns no result; and a successful attempt
whose response text is empty also yields no result. -/
theorem c6_retry_exhaustion :
    (∀ (f : ℕ → LlmAttempt) (mr : ℕ),
      (∀ k, k ≤ mr → ∃ m, f k = LlmAttempt.raised m) →
      call_llm f mr =
        { result := Option.none, attempts := mr + 1
          sleeps := (List.range mr).map (fun i => 2 ^ (1 + i)) } ∧
      List.Pairwise (· < ·) ((List.range mr).map (fun i => 2 ^ (1 + i)))) ∧
    (∀ (f : ℕ → LlmAttempt) (mr j : ℕ), j ≤ mr →
      (∀ k, k < j → ∃ m, f k = LlmAttempt.raised m) →
      f j = LlmAttempt.ok "" →
      (call_llm f mr).result = Option.none) := by
  constructor
  · intro f mr h
    exact ⟨call_llm_allRaised f mr h, pairwise_lt_backoff mr⟩
  · intro f mr j hj hall hok
    exact call_llm_emptyContent f mr j hj hall hok

theorem c6_retry_exhaustion_witness :
    (call_llm (fun _ => LlmAttempt.raised "boom") 2 =
      { result := Option.none, attempts := 3
        sleeps := (List.range 2).map (fun i => 2 ^ (1 + i)) } ∧
      List.Pairwise (· < ·) ((List.range 2).map (fun i => 2 ^ (1 + i)))) ∧
    (call_llm (fun _ => LlmAttempt.ok "") 2).result = Option.none :=
  ⟨c6_retry_exhaustion.1 (fun _ => LlmAttempt.raised "boom") 2
      (fun k _ => ⟨"boom", rfl⟩),
   c6_retry_exhaustion.2 (fun _ => LlmAttempt.ok "") 2 0 (by omega)
      (fun k hk => absurd hk (by omega)) rfl⟩

/-- C7: an evaluator record whose id field or template id field is missing
is skipped individually: it changes nothing (no draw, no event, no record,
no audit) and removing it from the catalog leaves the whole batch run over
the other evaluators unchanged. -/
theorem c7_invalid_evaluator (env : Env) (docs : List Trace) (n : ℕ)
    (s : RunSt) (ev : Evaluator) (evs1 evs2 : List Evaluator)
    (h : ev.id = Option.none ∨ ev.template_id = Option.none) :
    processEvaluator env docs n s ev = s ∧
    runEvaluators env docs n s (evs1 ++ ev :: evs2) =
      runEvaluators env docs n s (evs1 ++ evs2) := by
  have hv : validEvaluator ev = false := by
    rcases h with h | h <;> simp [validEvaluator, truthy, h]
  constructor
  · exact processEvaluator_invalid env docs n s ev hv
  · unfold runEvaluators
    rw [List.foldl_append, List.foldl_append,
      show List.foldl (processEvaluator env docs n)
          (List.foldl (processEvaluator env docs n) s evs1) (ev :: evs2) =
        List.foldl (processEvaluator env docs n)
          (processEvaluator env docs n
            (List.foldl (processEvaluator env docs n) s evs1) ev) evs2
        from rfl,
      processEvaluator_invalid env docs n _ ev hv]

theorem c7_invalid_evaluator_witness :
    processEvaluator testEnv [traceT1] 1 initSt evalNoTemplate = initSt ∧
    runEvaluators testEnv [traceT1] 1 initSt
      ([evalOne] ++ evalNoTemplate :: []) =
      runEvaluators testEnv [traceT1] 1 initSt ([evalOne] ++ []) :=
  c7_invalid_evaluator testEnv [traceT1] 1 initSt evalNoTemplate [evalOne] []
    (Or.inr rfl)

/-- C8: every record the pipeline persists has status failed exactly when
its classification is failed; any other classification, including none,
yields status completed. -/
theorem c8_status_classification (env : Env) (docs : List Trace)
    (evs : List Evaluator) (s0 : RunSt)
    (h : ∀ d ∈ s0.store,
      (d.status = "failed" ↔ d.classification = Option.some "failed")) :
    ∀ d ∈ (runPipeline env docs evs s0).store,
      (d.status = "failed" ↔ d.classification = Option.some "failed") := by
  obtain ⟨_, _, _, _, _, hp, _⟩ := runPipeline_master env docs evs s0
  intro d hd
  rcases hp d hd with hmem | ⟨ev, tid, t2, _, _, _, hdd⟩
  · exact h d hmem
  · rw [hdd]
    exact docFor_status_iff env (evInfoOf ev) tid t2

theorem c8_status_classification_witness :
    (∀ d ∈ (runPipeline mixEnv [traceT1, traceT2] [evalOne] initSt).store,
      (d.status = "failed" ↔ d.classification = Option.some "failed")) ∧
    (∀ d ∈ (runPipeline testEnv [traceT1] [evalOne] preSt).store,
      (d.status = "failed" ↔ d.classification = Option.some "failed")) :=
  ⟨c8_status_classification mixEnv [traceT1, traceT2] [evalOne] initSt
     (fun d hd => by simp [initSt] at hd),
   c8_status_classification testEnv [traceT1] [evalOne] preSt
     (fun d hd => by
       simp [preSt] at hd
       simp [hd, docPre])⟩

/-- C9: a unit that reaches persistence with a successful scoring result
stores persistScore of the returned score; persistScore rounds a numeric
score to the nearest multiple of 1/100 (ties to even, within 1/200 of the
original, e.g. 0.8333333 becomes 0.83) and leaves a non-numeric score
(None or a string) unchanged. -/
theorem c9_score_rounding :
    (∀ (env : Env) (info : EvInfo) (s : RunSt) (c : ℕ) (t : Trace)
        (tid : String) (sc : Val) (ro cl : Option String),
      effTraceId t = Option.some tid →
      passesSampling info.sampling_rate (env.draws s.rngIdx) = true →
      env.readErr (mkEvalId tid info.evaluator_id) = false →
      storeHas s.store (mkEvalId tid info.evaluator_id) = false →
      env.runEval info.evaluator_id (normalize_trace t) =
        ScoreOutcome.ok sc ro cl →
      env.upsertErr (mkEvalId tid info.evaluator_id) = false →
      ∃ d : EvalDoc,
        lookupKey (processTrace env info (s, c) t).1.store
          (mkEvalId tid info.evaluator_id) = Option.some d ∧
        d.score = persistScore sc) ∧
    (∀ q : ℚ, persistScore (Val.num q) = Val.num (pyRound2 q)) ∧
    (∀ q : ℚ, ∃ z : ℤ, pyRound2 q = (z : ℚ) / 100) ∧
    (∀ q : ℚ, |pyRound2 q - q| ≤ 1/200) ∧
    pyRound2 (8333333/10000000) = 83/100 ∧
    persistScore Val.none = Val.none ∧
    (∀ msg : String, persistScore (Val.str msg) = Val.str msg) := by
  refine ⟨?_, fun q => rfl, pyRound2_grid, pyRound2_close, pyRound2_example,
    rfl, fun msg => rfl⟩
  intro env info s c t tid sc ro cl hid hp hre hex hrun hue
  rw [processTrace_persist env info s c t tid hid hp hre hex hue]
  have hdoc := docFor_ok env info tid t sc ro cl hrun
  have hhas : storeHas s.store (docFor env info tid t).id = false := by
    rw [docFor_id]
    exact hex
  refine ⟨docFor env info tid t, ?_, ?_⟩
  · have hl := lookupKey_upsertDoc_self s.store (docFor env info tid t) hhas
    rw [docFor_id] at hl
    exact hl
  · rw [hdoc]

theorem c9_score_rounding_witness :
    (∃ d : EvalDoc,
      lookupKey (processTrace testEnv (evInfoOf evalOne) (initSt, 0)
          traceT1).1.store
        (mkEvalId "t1" (evInfoOf evalOne).evaluator_id) = Option.some d ∧
      d.score = persistScore (Val.num 1)) ∧
    persistScore (Val.num (8333333/10000000)) =
      Val.num (pyRound2 (8333333/10000000)) ∧
    pyRound2 (8333333/10000000) = 83/100 :=
  ⟨c9_score_rounding.1 testEnv (evInfoOf evalOne) initSt 0 traceT1 "t1"
      (Val.num 1) (Option.some "ok") (Option.some "good") rfl
      ((passesSampling_true_iff _ _).2 (by norm_num [testEnv, constDraws,
        initSt, evInfoOf, evalOne]))
      rfl rfl rfl rfl,
   c9_score_rounding.2.1 (8333333/10000000),
   c9_score_rounding.2.2.2.2.1⟩

/-- C10: a trace document with neither a trace_id nor an id field is
silently skipped for every evaluator: the unit changes nothing at all (no
draw is consumed, no event of any kind, no record, no count), yet the trace
still counts toward the audit denominator, which is the raw batch length
taken before per-trace validation. -/
theorem c10_traceless_skip :
    (∀ (env : Env) (info : EvInfo) (s : RunSt) (c : ℕ) (t : Trace),
      truthy (pyOr t.trace_id t.id) = false →
      processTrace env info (s, c) t = (s, c)) ∧
    (∀ (env : Env) (docs : List Trace) (s0 : RunSt) (ev : Evaluator),
      docs ≠ [] → validEvaluator ev = true →
      ∃ ex : ℕ,
        (runPipeline env docs [ev] s0).audits =
          s0.audits ++ [mkAudit (evInfoOf ev).evaluator_id ex docs.length]) := by
  constructor
  · intro env info s c t h
    have hid : effTraceId t = Option.none := by
      unfold effTraceId
      simp [h]
    exact processTrace_noId env info s c t hid
  · intro env docs s0 ev hd hv
    rw [runPipeline_eq env docs [ev] s0 hd (by simp),
      show runEvaluators env docs docs.length s0 [ev] =
        processEvaluator env docs docs.length s0 ev from rfl]
    obtain ⟨new, ex, _, ha, _, _, _, _⟩ :=
      processEvaluator_valid env docs docs.length s0 ev hv
    exact ⟨ex, ha⟩

theorem c10_traceless_skip_witness :
    processTrace testEnv (evInfoOf evalOne) (initSt, 0) traceNoId =
      (initSt, 0) ∧
    ∃ ex : ℕ,
      (runPipeline testEnv [traceT1, traceNoId] [evalOne] initSt).audits =
        initSt.audits ++ [mkAudit (evInfoOf evalOne).evaluator_id ex
          [traceT1, traceNoId].length] :=
  ⟨c10_traceless_skip.1 testEnv (evInfoOf evalOne) initSt 0 traceNoId rfl,
   c10_traceless_skip.2 testEnv [traceT1, traceNoId] initSt evalOne
     (by simp) rfl⟩

end SmartFactory
